import Mathlib

/-!
Shallow embedding of the `rafttest` cluster harness (`cluster.go`,
`servers_test.go` of dqlite/raft-test) and proofs about it.

Go durations are modelled as nanosecond counts (`Nat`), addresses as
`String`, and the in-memory stores of a node as small inductive tags,
since their internal behaviour is outside this package.  Transport
handles are identified by the index of the transport in the slice they
come from.  Loops become folds over `List.range`, mutation of a slice
element becomes `List.set`, and `panic`/`t.Fatalf` paths become
`Except`/`Option` results.
-/

namespace Rafttest

/-- One nanosecond unit: `time.Millisecond` in Go is 1e6 nanoseconds. -/
def Millisecond : Nat := 1000000

/-- The timing-relevant fields of `raft.Config` (durations in nanoseconds). -/
structure Config where
  heartbeatTimeout : Nat
  electionTimeout : Nat
  commitTimeout : Nat
  leaderLeaseTimeout : Nat
  deriving Repr, DecidableEq

/-- `raft.DefaultConfig()`: the production defaults of the timing fields
(1000ms heartbeat and election, 50ms commit, 500ms leader lease). -/
def DefaultConfig : Config :=
  { heartbeatTimeout := 1000 * Millisecond
    electionTimeout := 1000 * Millisecond
    commitTimeout := 50 * Millisecond
    leaderLeaseTimeout := 500 * Millisecond }

/-- Which log store implementation a node was built with. -/
inductive LogStore where
  | inmem
  deriving Repr, DecidableEq

/-- Which stable store implementation a node was built with. -/
inductive StableStore where
  | inmem
  deriving Repr, DecidableEq

/-- Which snapshot store implementation a node was built with. -/
inductive SnapshotStore where
  | discard
  deriving Repr, DecidableEq

/-- A `raft.PeerStore` (here always a `raft.StaticPeers`): a list of peer
addresses, together with fault flags saying whether its `Peers` /
`SetPeers` operations error.  `raft.StaticPeers` never errors, so the
harness always builds stores with both flags `false`; keeping the flags
lets us model the panic branches of `populatePeerStores`. -/
structure PeerStore where
  addrs : List String
  failGet : Bool
  failSet : Bool
  deriving Repr, DecidableEq

instance : Inhabited PeerStore := ⟨⟨[], false, false⟩⟩

/-- `store.Peers()`. -/
def PeerStore.Peers (s : PeerStore) : Except String (List String) :=
  if s.failGet then .error "get error" else .ok s.addrs

/-- `store.SetPeers(addrs)`: returns the updated store. -/
def PeerStore.SetPeers (s : PeerStore) (a : List String) : Except String PeerStore :=
  if s.failSet then .error "set error" else .ok { s with addrs := a }

/-- A `raft.LoopbackTransport` (in-memory): its local address and the
registry of connected peers, mapping a peer address to the handle
(index) of the peer transport.  `Connect` overwrites the registration
for an address, which we model by filtering out the old binding and
consing the new one. -/
structure Transport where
  localAddr : String
  conns : List (String × Nat)
  deriving Repr, DecidableEq

/-- `transport.Connect(addr, handle)`. -/
def Transport.Connect (t : Transport) (a : String) (h : Nat) : Transport :=
  { t with conns := (a, h) :: t.conns.filter (fun p => p.1 ≠ a) }

/-- Look an address up in a transport's registry. -/
def Transport.lookup (t : Transport) (a : String) : Option Nat :=
  (t.conns.find? (fun p => p.1 = a)).map Prod.snd

instance : Inhabited Transport := ⟨⟨"", []⟩⟩

/-- The dependency set of one test raft node (struct `node`). -/
structure node where
  Config : Config
  Logs : LogStore
  Stable : StableStore
  Snapshots : SnapshotStore
  Peers : PeerStore
  Transport : Transport
  deriving Repr, DecidableEq

instance : Inhabited node :=
  ⟨⟨DefaultConfig, .inmem, .inmem, .discard, ⟨[], false, false⟩, default⟩⟩

/-- `newNode(t, addr)`: default dependencies for a single raft node.  The
logger attached to the config is I/O and is not modelled. -/
def newNode (addr : String) : node :=
  let transport : Transport := { localAddr := addr, conns := [] }
  let config : Config :=
    { DefaultConfig with
        heartbeatTimeout := 50 * Millisecond
        electionTimeout := 50 * Millisecond
        leaderLeaseTimeout := 50 * Millisecond
        commitTimeout := 25 * Millisecond }
  { Config := config
    Logs := .inmem
    Stable := .inmem
    Snapshots := .discard
    Peers := { addrs := [], failGet := false, failSet := false }
    Transport := transport }

/-- One step of `connectLoobackTransports`: the loop body for the pair
`(i, j)` of indices into the transport slice.  `transport1.Connect`
registers `j`'s address and handle with `i` and vice versa; the slice
entries at `i` and `j` are updated in place. -/
def connectPair (ts : List Transport) (i j : Nat) : List Transport :=
  if i = j then ts
  else
    let ai := (ts.getD i default).localAddr
    let aj := (ts.getD j default).localAddr
    let ts1 := ts.set i ((ts.getD i default).Connect aj j)
    ts1.set j ((ts1.getD j default).Connect ai i)

/-- The row-major list of ordered index pairs visited by the nested
`range` loops of `connectLoobackTransports`. -/
def allPairs (n : Nat) : List (Nat × Nat) :=
  ((List.range n).map (fun i => (List.range n).map (fun j => (i, j)))).flatten

/-- `connectLoobackTransports(transports)`: connect all the given loopback
transports to each other. -/
def connectLoobackTransports (ts : List Transport) : List Transport :=
  (allPairs ts.length).foldl (fun s p => connectPair s p.1 p.2) ts

/-- A left fold through `Except`, stopping at the first error: the shape of
a Go loop whose body may `panic`. -/
def foldE (f : σ → Nat → Except String σ) : σ → List Nat → Except String σ
  | s, [] => .ok s
  | s, j :: js =>
    match f s j with
    | .error e => .error e
    | .ok s1 => foldE f s1 js

/-- The inner loop body of `populatePeerStores` for row `i` and column `j`:
skip the diagonal, read the current peers of store `i` (panicking on a
get error), append transport `j`'s local address, and write them back
(panicking on a set error). -/
def populateInner (transports : List Transport) (i : Nat) (st : List PeerStore)
    (j : Nat) : Except String (List PeerStore) :=
  if i = j then .ok st
  else
    match (st.getD i default).Peers with
    | .error _ => .error ("failed to get peers for node " ++ toString i)
    | .ok addrs =>
      match (st.getD i default).SetPeers
          (addrs ++ [(transports.getD j default).localAddr]) with
      | .error _ => .error ("failed to set peers for node " ++ toString i)
      | .ok store => .ok (st.set i store)

/-- The outer loop body of `populatePeerStores`: run the inner loop of row
`i` over all transport indices. -/
def populateRow (transports : List Transport) (st : List PeerStore) (i : Nat) :
    Except String (List PeerStore) :=
  foldE (populateInner transports i) st (List.range transports.length)

/-- `populatePeerStores(stores, transports)`: populate each node's peer
store with the addresses of the other nodes.  `.error` is a `panic`. -/
def populatePeerStores (stores : List PeerStore) (transports : List Transport) :
    Except String (List PeerStore) :=
  if stores.length ≠ transports.length then
    .error "peer stores and tranports length mismatch"
  else foldE (populateRow transports) stores (List.range stores.length)

/-- A `*raft.Raft` handle as produced by `newRaft`: the FSM it was created
from together with the dependency set it was bound to. -/
structure Raft (α : Type) where
  fsm : α
  deps : node

/-- `newRaft(fsm, node)`: convenience around `raft.NewRaft`.  `raft.NewRaft`
is external code; with the in-memory dependencies built by this package
it succeeds, so it is modelled as total. -/
def newRaft (fsm : α) (nd : node) : Raft α := ⟨fsm, nd⟩

instance [Inhabited α] : Inhabited (Raft α) := ⟨⟨default, default⟩⟩

/-- The `cluster` struct: the per-index node options.  The Go field is a
`map[int]*node` keyed by `0 .. n-1`; it is modelled as the list of its
values in key order. -/
structure cluster where
  nodes : List node

/-- The `Knob` interface: a two-phase customization hook over the cluster
bookkeeping. -/
structure Knob where
  init : cluster → cluster
  cleanup : cluster → cluster

/-- Observable events of the harness in execution order, used to state
ordering properties of `Cluster`, `Shutdown` and the cleanup closure. -/
inductive Event where
  | knobInit (k : Nat)
  | engineCreate (i : Nat)
  | shutdownRequest (i : Nat)
  | shutdownCheck (i : Nat)
  | knobCleanup (k : Nat)
  deriving Repr, DecidableEq

/-- The second loop of `Shutdown`: check each collected future in order;
`t.Fatalf` on the first error halts the loop, reporting that node's
index.  `errOf i` is the (external) error result of future `i`. -/
def checkFutures (errOf : Nat → Option String) : List Nat → List Event × Option (Nat × String)
  | [] => ([], none)
  | i :: rest =>
    match errOf i with
    | some msg => ([.shutdownCheck i], some (i, msg))
    | none =>
      let r := checkFutures errOf rest
      (.shutdownCheck i :: r.1, r.2)

/-- `Shutdown(t, rafts)`: first request shutdown of every node, collecting
the futures, then check the futures in order.  Returns the event trace
and the `t.Fatalf` report (node index and error), if any. -/
def Shutdown (rafts : List (Raft α)) (errOf : Nat → Option String) :
    List Event × Option (Nat × String) :=
  let futures := List.range rafts.length
  let checked := checkFutures errOf futures
  (futures.map Event.shutdownRequest ++ checked.1, checked.2)

/-- `Other(rafts, i)`: the loop over `range rafts`, returning the first
index different from `i`, else `-1`. -/
def otherLoop (i : Int) : List Nat → Int
  | [] => -1
  | j :: js => if i ≠ (j : Int) then (j : Int) else otherLoop i js

/-- `Other(rafts, i)`: the index of a raft node which differs from the
given one. -/
def Other (rafts : List (Raft α)) (i : Int) : Int :=
  otherLoop i (List.range rafts.length)

/-- The `for _, knob := range knobs { knob.init(cluster) }` loop, with its
event trace. -/
def knobInitLoop (knobs : List Knob) (cl : cluster) : cluster × List Event :=
  knobs.enum.foldl (fun acc p => (p.2.init acc.1, acc.2 ++ [Event.knobInit p.1])) (cl, [])

/-- The `for _, knob := range knobs { knob.cleanup(cluster) }` loop of the
cleanup closure, with its event trace. -/
def knobCleanupLoop (knobs : List Knob) (cl : cluster) : cluster × List Event :=
  knobs.enum.foldl (fun acc p => (p.2.cleanup acc.1, acc.2 ++ [Event.knobCleanup p.1])) (cl, [])

/-- The `for i := range fsms` loop of `Cluster`: create one engine per FSM
from the (knob-adjusted) node options, with its event trace. -/
def engineLoop (fsms : List α) (cl : cluster) : List (Raft α) × List Event :=
  fsms.enum.foldl
    (fun acc p => (acc.1 ++ [newRaft p.2 (cl.nodes.getD p.1 default)],
                   acc.2 ++ [Event.engineCreate p.1]))
    ([], [])

/-- What `Cluster` returns: the raft handles, the cluster bookkeeping as the
cleanup closure captures it, the construction event trace, and the
cleanup closure itself (parametrized, like `Shutdown`, by the external
error results of the shutdown futures). -/
structure ClusterResult (α : Type) where
  rafts : List (Raft α)
  finalCluster : cluster
  trace : List Event
  cleanup : (Nat → Option String) → cluster × List Event × Option (Nat × String)

/-- The body of the `cleanup` closure returned by `Cluster`: run `Shutdown`
over the rafts; if it fails the test (`t.Fatalf`) the knob cleanups never
run, otherwise run every knob's `cleanup` in the order supplied. -/
def cleanupRun (rafts : List (Raft α)) (knobs : List Knob) (cl : cluster)
    (errOf : Nat → Option String) : cluster × List Event × Option (Nat × String) :=
  let sd := Shutdown rafts errOf
  match sd.2 with
  | some e => (cl, sd.1, some e)
  | none =>
    let kc := knobCleanupLoop knobs cl
    (kc.1, sd.1 ++ kc.2, none)

/-- The first half of `Cluster`: build one node per index with default
dependencies, connect all loopback transports, and populate the peer
stores.  Mutation of `cluster.nodes[i].Transport`/`.Peers` through the
`transports`/`stores` aliases of the Go code is modelled by rebuilding
the node list with the updated fields; the `.error` branch is
unreachable because the store and transport slices have equal length. -/
def initialCluster (n : Nat) : cluster :=
  let nodes0 := (List.range n).map (fun i => newNode (toString i))
  let transports := connectLoobackTransports (nodes0.map (fun nd => nd.Transport))
  let stores : List PeerStore :=
    match populatePeerStores (nodes0.map (fun nd => nd.Peers)) transports with
    | .ok s => s
    | .error _ => nodes0.map (fun nd => nd.Peers)
  { nodes := (List.range n).map (fun i =>
      { nodes0.getD i default with
          Transport := transports.getD i default
          Peers := stores.getD i default }) }

/-- `Cluster(t, fsms, knobs...)`: build and wire the nodes
(`initialCluster`), run every knob's `init` in the order supplied, then
create one engine per FSM, and return the handles together with the
cleanup closure. -/
def Cluster (fsms : List α) (knobs : List Knob) : ClusterResult α :=
  let afterInit := knobInitLoop knobs (initialCluster fsms.length)
  let engines := engineLoop fsms afterInit.1
  { rafts := engines.1
    finalCluster := afterInit.1
    trace := afterInit.2 ++ engines.2
    cleanup := cleanupRun engines.1 knobs afterInit.1 }

/-- Modelled from the spec: the node-subset knob (`Servers` in
`servers_test.go`) is code of this repository missing from the sources;
only its test is present.  Per the spec it "restricts which identities
are actually wired into a running engine instance (e.g., bootstrap only
nodes {0})" by mutating the cluster bookkeeping at `init` time, after
peer-directory population, so that a selected node's "own configuration
reports exactly one server" in the single-node case.  The `cluster`
struct of the sources carries only the node options as bookkeeping, so
the knob is modelled there: a selected index keeps in its peer
directory only the addresses of the other selected nodes, and every
non-selected index is unwired entirely (empty peer list and no
transport connections).  Its `cleanup` does nothing. -/
def Servers (indices : List Nat) : Knob :=
  { init := fun c =>
      { nodes := (List.range c.nodes.length).map (fun i =>
          let nd : node := c.nodes.getD i default
          if i ∈ indices then
            let keep : List String := nd.Peers.addrs.filter (fun a =>
              (List.range c.nodes.length).any (fun j =>
                decide (j ∈ indices ∧
                  (c.nodes.getD j default).Transport.localAddr = a)))
            { nd with Peers := { nd.Peers with addrs := keep } }
          else
            { nd with
                Peers := { nd.Peers with addrs := [] }
                Transport := { nd.Transport with conns := [] } }) }
    cleanup := fun c => c }

/-- A knob that customizes nothing: the smallest implementation of the
`Knob` interface, used to exercise the knob plumbing on concrete
inputs. -/
def idKnob : Knob :=
  { init := fun c => c, cleanup := fun c => c }

/-- No store in the list has a faulty `Peers` or `SetPeers`: what holds of
every `raft.StaticPeers`. -/
def NoFail (st : List PeerStore) : Prop :=
  ∀ s ∈ st, s.failGet = false ∧ s.failSet = false

/-- The fold of `connectLoobackTransports` over an explicit list of index
pairs: the shape of its nested loops, used to reason about prefixes and
suffixes of the iteration. -/
def connFold (P : List (Nat × Nat)) (ts : List Transport) : List Transport :=
  P.foldl (fun s p => connectPair s p.1 p.2) ts

/-! ### Lemmas about `otherLoop` -/

theorem otherLoop_cons_skip (i : Int) (j : Nat) (js : List Nat) (h : i = (j : Int)) :
    otherLoop i (j :: js) = otherLoop i js := by
  rw [otherLoop, if_neg (not_not_intro h)]

theorem otherLoop_cons_found (i : Int) (j : Nat) (js : List Nat) (h : ¬i = (j : Int)) :
    otherLoop i (j :: js) = (j : Int) := by
  rw [otherLoop, if_pos h]

theorem otherLoop_eq_neg_one (i : Int) (L : List Nat) :
    otherLoop i L = -1 ↔ ∀ j ∈ L, (j : Int) = i := by
  induction L with
  | nil => simp [otherLoop]
  | cons j js ih =>
    by_cases hj : i = (j : Int)
    · rw [otherLoop_cons_skip i j js hj, List.forall_mem_cons]
      constructor
      · intro h
        exact ⟨hj.symm, ih.mp h⟩
      · intro h
        exact ih.mpr h.2
    · rw [otherLoop_cons_found i j js hj, List.forall_mem_cons]
      constructor
      · intro h
        exact absurd h (by omega)
      · intro h
        exact absurd h.1 (fun hh => hj hh.symm)

theorem otherLoop_range_first (i : Int) (m : Nat) :
    ∀ s n : Nat, otherLoop i (List.range' s n) = (m : Int) →
      s ≤ m ∧ m < s + n ∧ (m : Int) ≠ i ∧ ∀ k, s ≤ k → k < m → (k : Int) = i := by
  intro s n
  induction n generalizing s with
  | zero =>
    intro h
    rw [show List.range' s 0 = [] from rfl] at h
    rw [show otherLoop i [] = -1 from rfl] at h
    exact absurd h (by omega)
  | succ n ih =>
    intro h
    rw [List.range'_succ] at h
    by_cases hs : i = (s : Int)
    · rw [otherLoop_cons_skip i s _ hs] at h
      obtain ⟨h1, h2, h3, h4⟩ := ih (s + 1) h
      refine ⟨by omega, by omega, h3, ?_⟩
      intro k hk1 hk2
      rcases Nat.eq_or_lt_of_le hk1 with hk | hk
      · rw [← hk]
        exact hs.symm
      · exact h4 k hk hk2
    · rw [otherLoop_cons_found i s _ hs] at h
      have hm : s = m := by exact_mod_cast h
      subst hm
      refine ⟨le_refl _, by omega, fun hh => hs hh.symm, ?_⟩
      intro k hk1 hk2
      omega

/-! ### Lemmas about `checkFutures` and the loops of `Cluster` -/

theorem checkFutures_only_checks (errOf : Nat → Option String) (L : List Nat) :
    ∀ e ∈ (checkFutures errOf L).1, ∃ i, e = Event.shutdownCheck i := by
  induction L with
  | nil => simp [checkFutures]
  | cons i rest ih =>
    intro e he
    cases herr : errOf i with
    | some msg =>
      simp only [checkFutures, herr] at he
      simp only [List.mem_singleton] at he
      exact ⟨i, he⟩
    | none =>
      simp only [checkFutures, herr] at he
      rcases List.mem_cons.mp he with h | h
      · exact ⟨i, h⟩
      · exact ih e h

theorem checkFutures_all_ok (errOf : Nat → Option String)
    (L : List Nat) (herr : ∀ i ∈ L, errOf i = none) :
    checkFutures errOf L = (L.map Event.shutdownCheck, none) := by
  induction L with
  | nil => simp [checkFutures]
  | cons i rest ih =>
    have hi : errOf i = none := herr i (by simp)
    simp only [checkFutures, hi, List.map_cons]
    rw [ih (fun k hk => herr k (by simp [hk]))]

theorem checkFutures_report (errOf : Nat → Option String) (i : Nat) (msg : String) :
    ∀ s n : Nat, ((checkFutures errOf (List.range' s n)).2 = some (i, msg) ↔
      s ≤ i ∧ i < s + n ∧ errOf i = some msg ∧ ∀ k, s ≤ k → k < i → errOf k = none) := by
  intro s n
  induction n generalizing s with
  | zero =>
    rw [show List.range' s 0 = [] from rfl]
    simp only [checkFutures]
    constructor
    · intro h
      exact absurd h (by simp)
    · rintro ⟨h1, h2, _⟩
      omega
  | succ n ih =>
    rw [List.range'_succ]
    cases herr : errOf s with
    | some m =>
      simp only [checkFutures, herr, Option.some_inj, Prod.mk.injEq]
      constructor
      · rintro ⟨rfl, rfl⟩
        exact ⟨le_refl _, by omega, herr, fun k hk1 hk2 => by omega⟩
      · rintro ⟨h1, h2, h3, h4⟩
        rcases Nat.eq_or_lt_of_le h1 with hk | hk
        · subst hk
          rw [herr] at h3
          exact ⟨rfl, Option.some_inj.mp h3⟩
        · exact absurd (h4 s (le_refl _) hk) (by rw [herr]; simp)
    | none =>
      simp only [checkFutures, herr]
      rw [ih (s + 1)]
      constructor
      · rintro ⟨h1, h2, h3, h4⟩
        refine ⟨by omega, by omega, h3, ?_⟩
        intro k hk1 hk2
        rcases Nat.eq_or_lt_of_le hk1 with hk | hk
        · rw [← hk]
          exact herr
        · exact h4 k hk hk2
      · rintro ⟨h1, h2, h3, h4⟩
        have hne : s ≠ i := by
          intro hk
          subst hk
          rw [herr] at h3
          exact absurd h3 (by simp)
        refine ⟨by omega, by omega, h3, ?_⟩
        intro k hk1 hk2
        exact h4 k (by omega) hk2

theorem foldl_pair_append {β γ δ : Type _} (g : β → γ) (h : β → δ) (L : List β)
    (as : List γ) (bs : List δ) :
    L.foldl (fun acc p => (acc.1 ++ [g p], acc.2 ++ [h p])) (as, bs) =
      (as ++ L.map g, bs ++ L.map h) := by
  induction L generalizing as bs with
  | nil => simp
  | cons x xs ih =>
    rw [List.foldl_cons, ih]
    simp

theorem foldl_state_append {β σ δ : Type _} (f : σ → β → σ) (h : β → δ) (L : List β)
    (c : σ) (bs : List δ) :
    L.foldl (fun acc p => (f acc.1 p, acc.2 ++ [h p])) (c, bs) =
      (L.foldl f c, bs ++ L.map h) := by
  induction L generalizing c bs with
  | nil => simp
  | cons x xs ih =>
    rw [List.foldl_cons, ih]
    simp

theorem knobInit_fold_enumFrom (knobs : List Knob) :
    ∀ (n : Nat) (c : cluster),
      (List.enumFrom n knobs).foldl (fun c p => p.2.init c) c =
        knobs.foldl (fun c k => k.init c) c := by
  induction knobs with
  | nil => intro n c; rfl
  | cons k ks ih =>
    intro n c
    simp only [List.enumFrom, List.foldl_cons]
    exact ih (n + 1) _

theorem knobCleanup_fold_enumFrom (knobs : List Knob) :
    ∀ (n : Nat) (c : cluster),
      (List.enumFrom n knobs).foldl (fun c p => p.2.cleanup c) c =
        knobs.foldl (fun c k => k.cleanup c) c := by
  induction knobs with
  | nil => intro n c; rfl
  | cons k ks ih =>
    intro n c
    simp only [List.enumFrom, List.foldl_cons]
    exact ih (n + 1) _

theorem enumFrom_map_fst_event {β : Type _} (ev : Nat → Event) (L : List β) :
    ∀ n : Nat, (List.enumFrom n L).map (fun p => ev p.1) =
      (List.range' n L.length).map ev := by
  induction L with
  | nil => intro n; rfl
  | cons x xs ih =>
    intro n
    simp only [List.enumFrom, List.map_cons, List.length_cons, List.range'_succ]
    rw [ih (n + 1)]

theorem knobInitLoop_eq (knobs : List Knob) (cl : cluster) :
    knobInitLoop knobs cl =
      (knobs.foldl (fun c k => k.init c) cl,
        (List.range knobs.length).map Event.knobInit) := by
  rw [knobInitLoop,
    foldl_state_append (fun c (p : Nat × Knob) => p.2.init c)
      (fun p => Event.knobInit p.1) knobs.enum cl []]
  rw [show knobs.enum = List.enumFrom 0 knobs from rfl]
  rw [knobInit_fold_enumFrom knobs 0 cl, enumFrom_map_fst_event Event.knobInit knobs 0]
  rw [← List.range_eq_range']
  simp

theorem knobCleanupLoop_eq (knobs : List Knob) (cl : cluster) :
    knobCleanupLoop knobs cl =
      (knobs.foldl (fun c k => k.cleanup c) cl,
        (List.range knobs.length).map Event.knobCleanup) := by
  rw [knobCleanupLoop,
    foldl_state_append (fun c (p : Nat × Knob) => p.2.cleanup c)
      (fun p => Event.knobCleanup p.1) knobs.enum cl []]
  rw [show knobs.enum = List.enumFrom 0 knobs from rfl]
  rw [knobCleanup_fold_enumFrom knobs 0 cl, enumFrom_map_fst_event Event.knobCleanup knobs 0]
  rw [← List.range_eq_range']
  simp

theorem engineLoop_eq {α : Type} (fsms : List α) (cl : cluster) :
    engineLoop fsms cl =
      (fsms.enum.map (fun p => newRaft p.2 (cl.nodes.getD p.1 default)),
        (List.range fsms.length).map Event.engineCreate) := by
  rw [engineLoop,
    foldl_pair_append (fun (p : Nat × α) => newRaft p.2 (cl.nodes.getD p.1 default))
      (fun p => Event.engineCreate p.1) fsms.enum [] []]
  rw [show fsms.enum = List.enumFrom 0 fsms from rfl]
  rw [enumFrom_map_fst_event Event.engineCreate fsms 0]
  rw [← List.range_eq_range']
  simp [List.enum]

/-! ### Lemmas about `List.getD` and `List.set` -/

theorem getD_set_self {γ : Type _} [Inhabited γ] :
    ∀ (l : List γ) (i : Nat) (x : γ), i < l.length → (l.set i x).getD i default = x
  | _ :: _, 0, _, _ => rfl
  | _ :: l, i + 1, x, h => getD_set_self l i x (Nat.lt_of_succ_lt_succ h)

theorem getD_set_ne {γ : Type _} [Inhabited γ] :
    ∀ (l : List γ) (i k : Nat) (x : γ), k ≠ i →
      (l.set i x).getD k default = l.getD k default
  | [], _, _, _, _ => rfl
  | _ :: _, 0, 0, _, h => absurd rfl h
  | _ :: _, 0, _ + 1, _, _ => rfl
  | _ :: _, _ + 1, 0, _, _ => rfl
  | _ :: l, i + 1, k + 1, x, h =>
    getD_set_ne l i k x (fun hh => h (by rw [hh]))

theorem getD_mem {γ : Type _} [Inhabited γ] :
    ∀ (l : List γ) (i : Nat), i < l.length → l.getD i default ∈ l
  | a :: l, 0, _ => List.mem_cons_self a l
  | a :: l, i + 1, h =>
    List.mem_cons_of_mem a (getD_mem l i (Nat.lt_of_succ_lt_succ h))

theorem getD_out {γ : Type _} [Inhabited γ] :
    ∀ (l : List γ) (i : Nat), l.length ≤ i → l.getD i default = default
  | [], _, _ => rfl
  | _ :: l, i + 1, h => getD_out l i (Nat.le_of_succ_le_succ h)

/-! ### Lemmas about `populatePeerStores` -/

theorem Peers_ok : ∀ s : PeerStore, s.failGet = false → s.Peers = .ok s.addrs
  | ⟨_, false, _⟩, _ => rfl

theorem SetPeers_ok : ∀ (s : PeerStore) (a : List String), s.failSet = false →
    s.SetPeers a = .ok ⟨a, s.failGet, false⟩
  | ⟨_, _, false⟩, _, _ => rfl

theorem noFail_set (st : List PeerStore) (i : Nat) (x : PeerStore)
    (hst : NoFail st) (hx : x.failGet = false ∧ x.failSet = false) :
    NoFail (st.set i x) := by
  intro s hs
  rcases List.mem_or_eq_of_mem_set hs with h | h
  · exact hst s h
  · rw [h]
    exact hx

theorem populateInner_fold (transports : List Transport) (i : Nat) :
    ∀ (L : List Nat) (st : List PeerStore), i < st.length → NoFail st →
      ∃ st', foldE (populateInner transports i) st L = .ok st' ∧
        st'.length = st.length ∧ NoFail st' ∧
        (st'.getD i default).addrs = (st.getD i default).addrs ++
          (L.filter (fun j => ¬ i = j)).map
            (fun j => (transports.getD j default).localAddr) ∧
        ∀ k, k ≠ i → st'.getD k default = st.getD k default := by
  intro L
  induction L with
  | nil =>
    intro st hi hst
    exact ⟨st, rfl, rfl, hst, by simp, fun k _ => rfl⟩
  | cons j js ih =>
    intro st hi hst
    by_cases hij : i = j
    · have hstep : populateInner transports i st j = .ok st := by
        rw [populateInner, if_pos hij]
      obtain ⟨st', h1, h2, h3, h4, h5⟩ := ih st hi hst
      refine ⟨st', ?_, h2, h3, ?_, h5⟩
      · rw [foldE, hstep]
        exact h1
      · rw [h4, List.filter_cons, if_neg (by simp [hij])]
    · have hflags := hst (st.getD i default) (getD_mem st i hi)
      have hstep : populateInner transports i st j =
          .ok (st.set i ⟨(st.getD i default).addrs ++
            [(transports.getD j default).localAddr],
            (st.getD i default).failGet, false⟩) := by
        simp only [populateInner, if_neg hij, Peers_ok _ hflags.1,
          SetPeers_ok _ _ hflags.2]
      obtain ⟨st', h1, h2, h3, h4, h5⟩ := ih
        (st.set i ⟨(st.getD i default).addrs ++
          [(transports.getD j default).localAddr],
          (st.getD i default).failGet, false⟩)
        (by rw [List.length_set]; exact hi)
        (noFail_set st i _ hst ⟨hflags.1, rfl⟩)
      refine ⟨st', ?_, by rw [h2, List.length_set], h3, ?_, ?_⟩
      · rw [foldE, hstep]
        exact h1
      · rw [h4, getD_set_self st i _ hi, List.filter_cons, if_pos (by simp [hij])]
        simp
      · intro k hk
        rw [h5 k hk, getD_set_ne st i k _ hk]

theorem populateRow_spec (transports : List Transport) (st : List PeerStore)
    (i : Nat) (hi : i < st.length) (hst : NoFail st) :
    ∃ st', populateRow transports st i = .ok st' ∧
      st'.length = st.length ∧ NoFail st' ∧
      (st'.getD i default).addrs = (st.getD i default).addrs ++
        ((List.range transports.length).filter (fun j => ¬ i = j)).map
          (fun j => (transports.getD j default).localAddr) ∧
      ∀ k, k ≠ i → st'.getD k default = st.getD k default :=
  populateInner_fold transports i (List.range transports.length) st hi hst

theorem populateOuter_fold (transports : List Transport) :
    ∀ (M : List Nat) (st : List PeerStore), (∀ i ∈ M, i < st.length) →
      M.Nodup → NoFail st →
      ∃ st', foldE (populateRow transports) st M = .ok st' ∧
        st'.length = st.length ∧ NoFail st' ∧
        (∀ i ∈ M, (st'.getD i default).addrs = (st.getD i default).addrs ++
          ((List.range transports.length).filter (fun j => ¬ i = j)).map
            (fun j => (transports.getD j default).localAddr)) ∧
        ∀ k, k ∉ M → st'.getD k default = st.getD k default := by
  intro M
  induction M with
  | nil =>
    intro st _ _ hst
    exact ⟨st, rfl, rfl, hst, by simp, fun k _ => rfl⟩
  | cons i M' ih =>
    intro st hb hnd hst
    obtain ⟨st1, h1, h2, h3, h4, h5⟩ :=
      populateRow_spec transports st i (hb i (by simp)) hst
    obtain ⟨st', g1, g2, g3, g4, g5⟩ := ih st1
      (fun k hk => by rw [h2]; exact hb k (by simp [hk]))
      (List.Nodup.of_cons hnd) h3
    have hinotM : i ∉ M' := (List.nodup_cons.mp hnd).1
    refine ⟨st', ?_, by rw [g2, h2], g3, ?_, ?_⟩
    · rw [foldE, h1]
      exact g1
    · intro k hk
      rcases List.mem_cons.mp hk with rfl | hkM
      · rw [g5 k hinotM, h4]
      · have hknei : k ≠ i := fun hh => hinotM (hh ▸ hkM)
        rw [g4 k hkM, h5 k hknei]
    · intro k hk
      have hknei : k ≠ i := fun hh => hk (by simp [hh])
      have hknM : k ∉ M' := fun hh => hk (by simp [hh])
      rw [g5 k hknM, h5 k hknei]

theorem populatePeerStores_ok (stores : List PeerStore) (transports : List Transport)
    (hlen : stores.length = transports.length) (hst : NoFail stores) :
    ∃ result, populatePeerStores stores transports = .ok result ∧
      result.length = stores.length ∧
      ∀ i, i < stores.length → (result.getD i default).addrs =
        (stores.getD i default).addrs ++
          ((List.range transports.length).filter (fun j => ¬ i = j)).map
            (fun j => (transports.getD j default).localAddr) := by
  obtain ⟨result, h1, h2, _, h4, _⟩ := populateOuter_fold transports
    (List.range stores.length) stores
    (fun i hi => List.mem_range.mp hi) (List.nodup_range _) hst
  refine ⟨result, ?_, h2, fun i hi => h4 i (List.mem_range.mpr hi)⟩
  rw [populatePeerStores, if_neg (by omega)]
  exact h1

theorem filter_ne_range'_length (i : Nat) :
    ∀ (n s : Nat), s ≤ i → i < s + n →
      ((List.range' s n).filter (fun j => ¬ i = j)).length = n - 1 := by
  intro n
  induction n with
  | zero =>
    intro s h1 h2
    omega
  | succ n ih =>
    intro s h1 h2
    rw [List.range'_succ, List.filter_cons]
    by_cases his : i = s
    · rw [if_neg (by simp [his])]
      have hall : (List.range' (s + 1) n).filter (fun j => ¬ i = j) =
          List.range' (s + 1) n := by
        rw [List.filter_eq_self]
        intro a ha
        have := List.mem_range'.mp ha
        simp only [decide_eq_true_eq]
        omega
      rw [hall]
      simp
    · rw [if_pos (by simp [his]), List.length_cons, ih (s + 1) (by omega) (by omega)]
      omega

theorem cleanupRun_all_ok {α : Type} (rafts : List (Raft α)) (knobs : List Knob)
    (cl : cluster) (errOf : Nat → Option String) (herr : ∀ i, errOf i = none) :
    cleanupRun rafts knobs cl errOf =
      (knobs.foldl (fun c k => k.cleanup c) cl,
        ((List.range rafts.length).map Event.shutdownRequest ++
            (List.range rafts.length).map Event.shutdownCheck) ++
          (List.range knobs.length).map Event.knobCleanup,
        none) := by
  have hck := checkFutures_all_ok errOf (List.range rafts.length) (fun i _ => herr i)
  have hsd : Shutdown rafts errOf =
      ((List.range rafts.length).map Event.shutdownRequest ++
        (List.range rafts.length).map Event.shutdownCheck, none) := by
    rw [Shutdown, hck]
  rw [cleanupRun, hsd, knobCleanupLoop_eq]

/-! ### Claim theorems -/

/-- Claim C7: `Other` is a pure, deterministic selection: it returns the
first index in ascending order that differs from `i` (`0` when the slice
is non-empty and `i ≠ 0`; `1` when `i = 0` and the slice has at least
two elements); it returns the sentinel `-1` exactly when every node is
excluded; and two calls with the same arguments agree. -/
theorem Other_first_non_excluded {α : Type} (rafts : List (Raft α)) (i : Int) :
    (∀ m : Nat, Other rafts i = (m : Int) →
      m < rafts.length ∧ (m : Int) ≠ i ∧ ∀ k, k < m → (k : Int) = i) ∧
    (rafts ≠ [] → i ≠ 0 → Other rafts i = 0) ∧
    (i = 0 → 2 ≤ rafts.length → Other rafts i = 1) ∧
    (Other rafts i = -1 ↔ ∀ j, j < rafts.length → (j : Int) = i) ∧
    Other rafts i = Other rafts i := by
  have hrange : List.range rafts.length = List.range' 0 rafts.length :=
    List.range_eq_range' rafts.length
  refine ⟨?_, ?_, ?_, ?_, rfl⟩
  · intro m hm
    rw [Other, hrange] at hm
    obtain ⟨h1, h2, h3, h4⟩ := otherLoop_range_first i m 0 rafts.length hm
    exact ⟨by omega, h3, fun k hk => h4 k (Nat.zero_le k) hk⟩
  · intro hne hi
    have hlen : rafts.length ≠ 0 := fun h => hne (List.length_eq_zero.mp h)
    obtain ⟨n, hn⟩ : ∃ n, rafts.length = n + 1 := ⟨rafts.length - 1, by omega⟩
    rw [Other, hrange, hn, List.range'_succ]
    rw [otherLoop_cons_found i 0 _ (by exact_mod_cast hi)]
    simp
  · intro hi hlen
    obtain ⟨n, hn⟩ : ∃ n, rafts.length = n + 2 := ⟨rafts.length - 2, by omega⟩
    rw [Other, hrange, hn, List.range'_succ, List.range'_succ]
    rw [otherLoop_cons_skip i 0 _ (by simp [hi])]
    rw [otherLoop_cons_found i 1 _ (by simp [hi])]
    simp
  · rw [Other, otherLoop_eq_neg_one]
    constructor
    · intro h j hj
      exact h j (List.mem_range.mpr hj)
    · intro h j hj
      exact h j (List.mem_range.mp hj)

/-- Claim C4: `Shutdown` initiates shutdown of every given raft node,
collecting all the futures, before checking any future for an error: its
trace is all the shutdown requests followed only by checks, the request
of every node is in the trace whatever the future errors are, and the
`t.Fatalf` report carries the index of the first node whose future
errored — so no node is skipped by an earlier node's failure. -/
theorem Shutdown_collects_before_reporting {α : Type} (rafts : List (Raft α))
    (errOf : Nat → Option String) :
    ((Shutdown rafts errOf).1 =
        (List.range rafts.length).map Event.shutdownRequest ++
          (checkFutures errOf (List.range rafts.length)).1 ∧
      ∀ e ∈ (checkFutures errOf (List.range rafts.length)).1,
        ∃ i, e = Event.shutdownCheck i) ∧
    (∀ i, i < rafts.length → Event.shutdownRequest i ∈ (Shutdown rafts errOf).1) ∧
    (∀ i msg, (Shutdown rafts errOf).2 = some (i, msg) ↔
      i < rafts.length ∧ errOf i = some msg ∧ ∀ k, k < i → errOf k = none) := by
  refine ⟨⟨rfl, checkFutures_only_checks errOf _⟩, ?_, ?_⟩
  · intro i hi
    show Event.shutdownRequest i ∈
      (List.range rafts.length).map Event.shutdownRequest ++
        (checkFutures errOf (List.range rafts.length)).1
    exact List.mem_append_left _ (List.mem_map_of_mem _ (List.mem_range.mpr hi))
  · intro i msg
    show (checkFutures errOf (List.range rafts.length)).2 = some (i, msg) ↔ _
    rw [List.range_eq_range', checkFutures_report errOf i msg 0 rafts.length]
    constructor
    · rintro ⟨h1, h2, h3, h4⟩
      exact ⟨by omega, h3, fun k hk => h4 k (Nat.zero_le k) hk⟩
    · rintro ⟨h1, h2, h3⟩
      exact ⟨Nat.zero_le i, by omega, h2, fun k _ hk => h3 k hk⟩

/-- Claim C2: for every non-empty FSM list and any knob sequence, `Cluster`
returns exactly one engine handle per FSM, the handle at index `i` being
created from `fsms[i]` and node `i`'s dependency set, plus the cleanup
closure over those handles. -/
theorem Cluster_handles_aligned {α : Type} (fsms : List α) (knobs : List Knob)
    (hne : fsms ≠ []) :
    (Cluster fsms knobs).rafts.length = fsms.length ∧
    (∀ (i : Nat) (hi : i < fsms.length),
      (Cluster fsms knobs).rafts[i]? =
        some (newRaft fsms[i]
          ((Cluster fsms knobs).finalCluster.nodes.getD i default))) ∧
    (Cluster fsms knobs).cleanup =
      cleanupRun (Cluster fsms knobs).rafts knobs (Cluster fsms knobs).finalCluster := by
  have hr : (Cluster fsms knobs).rafts =
      (engineLoop fsms (Cluster fsms knobs).finalCluster).1 := rfl
  refine ⟨?_, ?_, rfl⟩
  · rw [hr, engineLoop_eq]
    simp
  · intro i hi
    rw [hr, engineLoop_eq]
    simp only [List.getElem?_map, List.getElem?_enum]
    rw [List.getElem?_eq_getElem hi]
    rfl

/-- Claim C3: every knob's `init` runs, in the order supplied, before any
engine instance is created (the construction trace is all the knob-init
events followed by the engine-create events), and the cleanup closure
first shuts all engine instances down and only then runs every knob's
`cleanup` in the same supplied order. -/
theorem Cluster_knob_order {α : Type} (fsms : List α) (knobs : List Knob)
    (errOf : Nat → Option String) (herr : ∀ i, errOf i = none) :
    (Cluster fsms knobs).trace =
      (List.range knobs.length).map Event.knobInit ++
        (List.range fsms.length).map Event.engineCreate ∧
    ((Cluster fsms knobs).cleanup errOf).2.1 =
      ((List.range fsms.length).map Event.shutdownRequest ++
          (List.range fsms.length).map Event.shutdownCheck) ++
        (List.range knobs.length).map Event.knobCleanup ∧
    ((Cluster fsms knobs).cleanup errOf).2.2 = none := by
  have hlen : (Cluster fsms knobs).rafts.length = fsms.length := by
    rw [show (Cluster fsms knobs).rafts =
        (engineLoop fsms (Cluster fsms knobs).finalCluster).1 from rfl, engineLoop_eq]
    simp
  have hclean : (Cluster fsms knobs).cleanup errOf =
      cleanupRun (Cluster fsms knobs).rafts knobs
        (Cluster fsms knobs).finalCluster errOf := rfl
  have hcr := cleanupRun_all_ok (Cluster fsms knobs).rafts knobs
    (Cluster fsms knobs).finalCluster errOf herr
  refine ⟨?_, ?_, ?_⟩
  · show ((knobInitLoop knobs (initialCluster fsms.length)).2 ++
      (engineLoop fsms (knobInitLoop knobs (initialCluster fsms.length)).1).2) = _
    rw [knobInitLoop_eq, engineLoop_eq]
  · rw [hclean, hcr, hlen]
  · rw [hclean, hcr]

/-- Claim C3 witness: the phase structure evaluated on a concrete one-node
cluster with one knob and error-free shutdown futures. -/
theorem Cluster_knob_order_witness :
    (Cluster ([0] : List Nat) [idKnob]).trace =
      [Event.knobInit 0, Event.engineCreate 0] ∧
    ((Cluster ([0] : List Nat) [idKnob]).cleanup (fun _ => none)).2.1 =
      [Event.shutdownRequest 0, Event.shutdownCheck 0, Event.knobCleanup 0] ∧
    ((Cluster ([0] : List Nat) [idKnob]).cleanup (fun _ => none)).2.2 = none := by
  have h := Cluster_knob_order ([0] : List Nat) [idKnob] (fun _ => none)
    (fun i => rfl)
  exact ⟨h.1, h.2.1, h.2.2⟩

/-- Claim C2 witness: the alignment evaluated on a concrete two-FSM
cluster. -/
theorem Cluster_handles_aligned_witness :
    (Cluster ([5, 7] : List Nat) []).rafts.length = 2 ∧
    (Cluster ([5, 7] : List Nat) []).rafts[1]? =
      some (newRaft 7 ((Cluster ([5, 7] : List Nat) []).finalCluster.nodes.getD 1 default)) := by
  have h := Cluster_handles_aligned ([5, 7] : List Nat) [] (by simp)
  exact ⟨h.1, h.2.1 1 (by simp)⟩

/-- Claim C10: `Cluster` called with an empty FSM list does not fail: it
returns an empty handle slice, and the cleanup closure shuts down zero
engines (running only the knob cleanups) and succeeds whatever the
shutdown futures would have reported. -/
theorem Cluster_empty_input {α : Type} (knobs : List Knob)
    (errOf : Nat → Option String) :
    (Cluster ([] : List α) knobs).rafts = [] ∧
    ((Cluster ([] : List α) knobs).cleanup errOf).2.2 = none ∧
    ((Cluster ([] : List α) knobs).cleanup errOf).2.1 =
      (List.range knobs.length).map Event.knobCleanup := by
  refine ⟨rfl, rfl, ?_⟩
  show [] ++ (knobCleanupLoop knobs (Cluster ([] : List α) knobs).finalCluster).2 = _
  rw [knobCleanupLoop_eq]
  simp

/-- Claim C1 (code bug): with three FSMs and the node-subset knob
restricting the cluster to index 0, this `Cluster` still creates an
engine for every FSM — the trace records engine creations for indices
0, 1 and 2 and three handles come back — even though the knob correctly
leaves node 0's peer directory empty (a one-server configuration);
`TestServers` instead expects exactly one engine instance started and
the other constructed nodes never started. -/
theorem Cluster_ignores_servers_knob :
    (Cluster ([0, 1, 2] : List Nat) [Servers [0]]).rafts.length = 3 ∧
    (Cluster ([0, 1, 2] : List Nat) [Servers [0]]).trace =
      [Event.knobInit 0, Event.engineCreate 0, Event.engineCreate 1,
        Event.engineCreate 2] ∧
    ((Cluster ([0, 1, 2] : List Nat) [Servers [0]]).rafts.getD 0
        default).deps.Peers.addrs = [] := by
  refine ⟨rfl, rfl, rfl⟩

/-- Claim C5: after `populatePeerStores` runs over initially-empty,
never-erroring peer stores and equally many transports, the peer store
of each node `i` holds exactly the local addresses of the other nodes'
transports — the `n - 1` addresses of the indices other than `i`, in
ascending node index. -/
theorem populatePeerStores_other_addresses (stores : List PeerStore)
    (transports : List Transport)
    (hlen : stores.length = transports.length)
    (hinit : ∀ s ∈ stores, s.addrs = [] ∧ s.failGet = false ∧ s.failSet = false) :
    ∃ result, populatePeerStores stores transports = .ok result ∧
      result.length = stores.length ∧
      ∀ i, i < stores.length →
        (result.getD i default).addrs =
          ((List.range transports.length).filter (fun j => ¬ i = j)).map
            (fun j => (transports.getD j default).localAddr) ∧
        (result.getD i default).addrs.length = transports.length - 1 := by
  obtain ⟨result, h1, h2, h3⟩ := populatePeerStores_ok stores transports hlen
    (fun s hs => ⟨(hinit s hs).2.1, (hinit s hs).2.2⟩)
  refine ⟨result, h1, h2, ?_⟩
  intro i hi
  have hempty : (stores.getD i default).addrs = [] :=
    (hinit _ (getD_mem stores i hi)).1
  have hfill := h3 i hi
  rw [hempty, List.nil_append] at hfill
  refine ⟨hfill, ?_⟩
  rw [hfill, List.length_map, List.range_eq_range']
  exact filter_ne_range'_length i transports.length 0 (Nat.zero_le i) (by omega)

/-- Claim C5 witness: two empty stores and two transports, evaluated. -/
theorem populatePeerStores_other_addresses_witness :
    ∃ result, populatePeerStores [⟨[], false, false⟩, ⟨[], false, false⟩]
        [⟨"0", []⟩, ⟨"1", []⟩] = .ok result ∧
      result.length = ([⟨[], false, false⟩, ⟨[], false, false⟩] : List PeerStore).length ∧
      ∀ i, i < ([⟨[], false, false⟩, ⟨[], false, false⟩] : List PeerStore).length →
        (result.getD i default).addrs =
          ((List.range ([⟨"0", []⟩, ⟨"1", []⟩] : List Transport).length).filter
            (fun j => ¬ i = j)).map
              (fun j => (([⟨"0", []⟩, ⟨"1", []⟩] : List Transport).getD j
                default).localAddr) ∧
        (result.getD i default).addrs.length =
          ([⟨"0", []⟩, ⟨"1", []⟩] : List Transport).length - 1 :=
  populatePeerStores_other_addresses
    [⟨[], false, false⟩, ⟨[], false, false⟩] [⟨"0", []⟩, ⟨"1", []⟩]
    rfl (by decide)

/-- Claim C8: with never-erroring stores, `populatePeerStores` aborts with
a panic exactly when the number of peer stores differs from the number
of transports; under equal lengths no panic branch is reachable and the
function completes normally. -/
theorem populatePeerStores_panics_iff (stores : List PeerStore)
    (transports : List Transport)
    (hfail : ∀ s ∈ stores, s.failGet = false ∧ s.failSet = false) :
    ((∃ e, populatePeerStores stores transports = .error e) ↔
      stores.length ≠ transports.length) ∧
    (stores.length = transports.length →
      ∃ result, populatePeerStores stores transports = .ok result) := by
  constructor
  · constructor
    · rintro ⟨e, he⟩ hlen
      obtain ⟨result, h1, _, _⟩ := populatePeerStores_ok stores transports hlen hfail
      rw [h1] at he
      exact absurd he (by simp)
    · intro hlen
      exact ⟨_, by rw [populatePeerStores, if_pos hlen]⟩
  · intro hlen
    obtain ⟨result, h1, _, _⟩ := populatePeerStores_ok stores transports hlen hfail
    exact ⟨result, h1⟩

/-- Claim C8 witness: one store against zero transports panics; the iff and
the ok case evaluated at concrete input. -/
theorem populatePeerStores_panics_iff_witness :
    ((∃ e, populatePeerStores [⟨[], false, false⟩] [] = .error e) ↔
      ([⟨[], false, false⟩] : List PeerStore).length ≠ ([] : List Transport).length) ∧
    (([⟨[], false, false⟩] : List PeerStore).length = ([] : List Transport).length →
      ∃ result, populatePeerStores [⟨[], false, false⟩] [] = .ok result) :=
  populatePeerStores_panics_iff [⟨[], false, false⟩] [] (by decide)

/-- Claim C9: for every identity string, `newNode` produces a dependency
set with an in-memory log store, an in-memory stable store, a discard
(in-memory) snapshot store, an in-memory transport bound to that
identity's address, heartbeat, election and leader-lease timeouts of 50
milliseconds each — at most a tenth of the production defaults — and a
commit timeout of 25 milliseconds. -/
theorem newNode_dependencies (addr : String) :
    (newNode addr).Logs = LogStore.inmem ∧
    (newNode addr).Stable = StableStore.inmem ∧
    (newNode addr).Snapshots = SnapshotStore.discard ∧
    (newNode addr).Transport.localAddr = addr ∧
    (newNode addr).Transport.conns = [] ∧
    (newNode addr).Config.heartbeatTimeout = 50 * Millisecond ∧
    (newNode addr).Config.electionTimeout = 50 * Millisecond ∧
    (newNode addr).Config.leaderLeaseTimeout = 50 * Millisecond ∧
    (newNode addr).Config.commitTimeout = 25 * Millisecond ∧
    10 * (newNode addr).Config.heartbeatTimeout ≤ DefaultConfig.heartbeatTimeout ∧
    10 * (newNode addr).Config.electionTimeout ≤ DefaultConfig.electionTimeout ∧
    10 * (newNode addr).Config.leaderLeaseTimeout ≤ DefaultConfig.leaderLeaseTimeout := by
  refine ⟨rfl, rfl, rfl, rfl, rfl, rfl, rfl, rfl, rfl, ?_, ?_, ?_⟩
  · have h1 : (newNode addr).Config.heartbeatTimeout = 50 * Millisecond := rfl
    have h2 : DefaultConfig.heartbeatTimeout = 1000 * Millisecond := rfl
    rw [h1, h2]
    omega
  · have h1 : (newNode addr).Config.electionTimeout = 50 * Millisecond := rfl
    have h2 : DefaultConfig.electionTimeout = 1000 * Millisecond := rfl
    rw [h1, h2]
    omega
  · have h1 : (newNode addr).Config.leaderLeaseTimeout = 50 * Millisecond := rfl
    have h2 : DefaultConfig.leaderLeaseTimeout = 500 * Millisecond := rfl
    rw [h1, h2]
    omega

/-! ### Lemmas about `connectLoobackTransports` -/

theorem getD_eq_getElem' {γ : Type _} [Inhabited γ] :
    ∀ (l : List γ) (i : Nat) (h : i < l.length), l.getD i default = l[i]
  | _ :: _, 0, _ => rfl
  | _ :: l, i + 1, h => getD_eq_getElem' l i (Nat.lt_of_succ_lt_succ h)

theorem find?_filter_ne (a b : String) (hab : b ≠ a) :
    ∀ l : List (String × Nat),
      (l.filter (fun p => p.1 ≠ a)).find? (fun p => p.1 = b) =
        l.find? (fun p => p.1 = b) := by
  intro l
  induction l with
  | nil => rfl
  | cons x xs ih =>
    rw [List.filter_cons]
    by_cases hx : x.1 = a
    · rw [if_neg (by simp [hx]), ih,
        List.find?_cons_of_neg _ (by simp [hx]; exact fun hh => hab hh.symm)]
    · rw [if_pos (by simp [hx])]
      by_cases hxb : x.1 = b
      · rw [List.find?_cons_of_pos _ (by simp [hxb]),
          List.find?_cons_of_pos _ (by simp [hxb])]
      · rw [List.find?_cons_of_neg _ (by simp [hxb]),
          List.find?_cons_of_neg _ (by simp [hxb]), ih]

theorem lookup_Connect (t : Transport) (a : String) (h : Nat) (b : String) :
    (t.Connect a h).lookup b = if b = a then some h else t.lookup b := by
  by_cases hba : b = a
  · rw [if_pos hba, Transport.lookup, Transport.Connect,
      List.find?_cons_of_pos _ (by simp [hba])]
    rfl
  · rw [if_neg hba, Transport.lookup, Transport.Connect,
      List.find?_cons_of_neg _ (by simp; exact fun hh => hba hh.symm),
      find?_filter_ne a b hba, Transport.lookup]

theorem connectPair_ne (ts : List Transport) (i j : Nat) (hij : ¬i = j) :
    connectPair ts i j =
      (ts.set i ((ts.getD i default).Connect ((ts.getD j default).localAddr) j)).set j
        ((ts.getD j default).Connect ((ts.getD i default).localAddr) i) := by
  simp only [connectPair, if_neg hij]
  rw [getD_set_ne ts i j _ (fun hh => hij hh.symm)]

theorem connectPair_length (ts : List Transport) (i j : Nat) :
    (connectPair ts i j).length = ts.length := by
  by_cases hij : i = j
  · rw [connectPair, if_pos hij]
  · rw [connectPair_ne ts i j hij, List.length_set, List.length_set]

theorem connectPair_localAddr (ts : List Transport) (i j k : Nat)
    (hi : i < ts.length) (hj : j < ts.length) :
    ((connectPair ts i j).getD k default).localAddr =
      (ts.getD k default).localAddr := by
  by_cases hij : i = j
  · rw [connectPair, if_pos hij]
  rw [connectPair_ne ts i j hij]
  by_cases hkj : k = j
  · subst hkj
    rw [getD_set_self _ _ _ (by rw [List.length_set]; exact hj)]
    rfl
  · rw [getD_set_ne _ j k _ hkj]
    by_cases hki : k = i
    · subst hki
      rw [getD_set_self _ _ _ hi]
      rfl
    · rw [getD_set_ne _ i k _ hki]

theorem connectPair_establishes (ts : List Transport) (i j : Nat)
    (hi : i < ts.length) (hj : j < ts.length) (hij : ¬i = j) :
    ((connectPair ts i j).getD i default).lookup
        ((ts.getD j default).localAddr) = some j ∧
      ((connectPair ts i j).getD j default).lookup
        ((ts.getD i default).localAddr) = some i := by
  rw [connectPair_ne ts i j hij]
  constructor
  · rw [getD_set_ne _ j i _ hij, getD_set_self _ _ _ hi, lookup_Connect,
      if_pos rfl]
  · rw [getD_set_self _ _ _ (by rw [List.length_set]; exact hj), lookup_Connect,
      if_pos rfl]

theorem connectPair_preserves_binding (ts : List Transport) (a : Nat → String)
    (haddr : ∀ p, p < ts.length → (ts.getD p default).localAddr = a p)
    (hdist : ∀ p q, p < ts.length → q < ts.length → p ≠ q → a p ≠ a q)
    (i j k m : Nat) (hi : i < ts.length) (hj : j < ts.length)
    (hm : m < ts.length)
    (hb : (ts.getD k default).lookup (a m) = some m) :
    ((connectPair ts i j).getD k default).lookup (a m) = some m := by
  by_cases hij : i = j
  · rw [connectPair, if_pos hij]
    exact hb
  rw [connectPair_ne ts i j hij]
  by_cases hkj : k = j
  · subst hkj
    rw [getD_set_self _ _ _ (by rw [List.length_set]; exact hj), lookup_Connect,
      haddr i hi]
    by_cases hmi : a m = a i
    · have hmi' : m = i := by
        by_contra hne
        exact hdist m i hm hi hne hmi
      rw [if_pos hmi, hmi']
    · rw [if_neg hmi]
      exact hb
  · rw [getD_set_ne _ j k _ hkj]
    by_cases hki : k = i
    · subst hki
      rw [getD_set_self _ _ _ hi, lookup_Connect, haddr j hj]
      by_cases hmj : a m = a j
      · have hmj' : m = j := by
          by_contra hne
          exact hdist m j hm hj hne hmj
        rw [if_pos hmj, hmj']
      · rw [if_neg hmj]
        exact hb
    · rw [getD_set_ne _ i k _ hki]
      exact hb

theorem connFold_cons (p : Nat × Nat) (P : List (Nat × Nat)) (ts : List Transport) :
    connFold (p :: P) ts = connFold P (connectPair ts p.1 p.2) := rfl

theorem connFold_length (P : List (Nat × Nat)) :
    ∀ ts : List Transport, (connFold P ts).length = ts.length := by
  induction P with
  | nil => intro ts; rfl
  | cons p P ih =>
    intro ts
    rw [connFold_cons, ih, connectPair_length]

theorem connFold_localAddr (P : List (Nat × Nat)) :
    ∀ (ts : List Transport) (k : Nat),
      (∀ p ∈ P, p.1 < ts.length ∧ p.2 < ts.length) →
      ((connFold P ts).getD k default).localAddr = (ts.getD k default).localAddr := by
  induction P with
  | nil => intro ts k _; rfl
  | cons p P ih =>
    intro ts k hP
    rw [connFold_cons, ih _ k (fun q hq => by
      rw [connectPair_length]
      exact hP q (List.mem_cons_of_mem p hq))]
    exact connectPair_localAddr ts p.1 p.2 k (hP p (by simp)).1 (hP p (by simp)).2

theorem connFold_preserves_binding (a : Nat → String) (n : Nat)
    (hdist : ∀ p q, p < n → q < n → p ≠ q → a p ≠ a q)
    (P : List (Nat × Nat)) :
    ∀ ts : List Transport, ts.length = n →
      (∀ p, p < n → (ts.getD p default).localAddr = a p) →
      (∀ p ∈ P, p.1 < n ∧ p.2 < n) →
      ∀ k m, m < n →
        (ts.getD k default).lookup (a m) = some m →
        ((connFold P ts).getD k default).lookup (a m) = some m := by
  induction P with
  | nil => intro ts _ _ _ k m _ hb; exact hb
  | cons p P ih =>
    intro ts hlen ha hP k m hm hb
    rw [connFold_cons]
    have hp1 : p.1 < ts.length := hlen ▸ (hP p (by simp)).1
    have hp2 : p.2 < ts.length := hlen ▸ (hP p (by simp)).2
    refine ih (connectPair ts p.1 p.2) (by rw [connectPair_length]; exact hlen) ?_
      (fun q hq => hP q (List.mem_cons_of_mem p hq)) k m hm ?_
    · intro q hq
      rw [connectPair_localAddr ts p.1 p.2 q hp1 hp2]
      exact ha q hq
    · exact connectPair_preserves_binding ts a
        (fun q hq => ha q (hlen ▸ hq))
        (fun q r hq hr => hdist q r (hlen ▸ hq) (hlen ▸ hr))
        p.1 p.2 k m hp1 hp2 (hlen ▸ hm) hb

theorem allPairs_mem_bound (n : Nat) (p : Nat × Nat) (hp : p ∈ allPairs n) :
    p.1 < n ∧ p.2 < n := by
  rw [allPairs] at hp
  obtain ⟨l, hl, hpl⟩ := List.mem_flatten.mp hp
  obtain ⟨x, hx, rfl⟩ := List.mem_map.mp hl
  obtain ⟨y, hy, rfl⟩ := List.mem_map.mp hpl
  exact ⟨List.mem_range.mp hx, List.mem_range.mp hy⟩

theorem allPairs_mem (n i j : Nat) (hi : i < n) (hj : j < n) :
    (i, j) ∈ allPairs n := by
  rw [allPairs]
  apply List.mem_flatten.mpr
  refine ⟨(List.range n).map (fun y => (i, y)), ?_, ?_⟩
  · exact List.mem_map_of_mem _ (List.mem_range.mpr hi)
  · exact List.mem_map_of_mem _ (List.mem_range.mpr hj)

/-- Claim C6: after `connectLoobackTransports` runs on `n` transports with
distinct local addresses, every ordered pair `(i, j)` with `i ≠ j` has
`j`'s local address and handle registered with transport `i` — a
complete bidirectional graph — and re-connecting an already-connected
pair changes no registration: every transport's registry answers every
address lookup exactly as before. -/
theorem connectLoobackTransports_complete (ts : List Transport)
    (hnodup : (ts.map Transport.localAddr).Nodup) :
    ∀ i j, i < ts.length → j < ts.length → i ≠ j →
      ((connectLoobackTransports ts).getD i default).lookup
          ((ts.getD j default).localAddr) = some j ∧
        ∀ k b, ((connectPair (connectLoobackTransports ts) i j).getD k
            default).lookup b =
          ((connectLoobackTransports ts).getD k default).lookup b := by
  have hdist : ∀ p q, p < ts.length → q < ts.length → p ≠ q →
      (ts.getD p default).localAddr ≠ (ts.getD q default).localAddr := by
    intro p q hp hq hne heq
    apply hne
    rw [getD_eq_getElem' ts p hp, getD_eq_getElem' ts q hq] at heq
    have hp' : p < (ts.map Transport.localAddr).length := by
      rw [List.length_map]
      exact hp
    have hq' : q < (ts.map Transport.localAddr).length := by
      rw [List.length_map]
      exact hq
    have : (ts.map Transport.localAddr)[p] = (ts.map Transport.localAddr)[q] := by
      rw [List.getElem_map, List.getElem_map]
      exact heq
    exact (List.Nodup.getElem_inj_iff hnodup).mp this
  have hmain : ∀ i j, i < ts.length → j < ts.length → i ≠ j →
      ((connectLoobackTransports ts).getD i default).lookup
        ((ts.getD j default).localAddr) = some j := by
    intro i j hi hj hij
    obtain ⟨P1, P2, hsplit⟩ := List.append_of_mem (allPairs_mem ts.length i j hi hj)
    have hfold : connectLoobackTransports ts =
        connFold P2 (connectPair (connFold P1 ts) i j) := by
      show connFold (allPairs ts.length) ts = _
      rw [hsplit, connFold, List.foldl_append, List.foldl_cons]
      rfl
    have hP1 : ∀ p ∈ P1, p.1 < ts.length ∧ p.2 < ts.length := by
      intro p hp
      exact allPairs_mem_bound ts.length p
        (hsplit ▸ List.mem_append_left _ hp)
    have hP2 : ∀ p ∈ P2, p.1 < ts.length ∧ p.2 < ts.length := by
      intro p hp
      exact allPairs_mem_bound ts.length p
        (hsplit ▸ List.mem_append_right _ (List.mem_cons_of_mem _ hp))
    have hlen1 : (connFold P1 ts).length = ts.length := connFold_length P1 ts
    have haddr1 : ∀ q, ((connFold P1 ts).getD q default).localAddr =
        (ts.getD q default).localAddr :=
      fun q => connFold_localAddr P1 ts q hP1
    have hest := connectPair_establishes (connFold P1 ts) i j
      (hlen1 ▸ hi) (hlen1 ▸ hj) hij
    rw [hfold]
    refine connFold_preserves_binding (fun q => (ts.getD q default).localAddr)
      ts.length hdist P2 (connectPair (connFold P1 ts) i j)
      (by rw [connectPair_length]; exact hlen1) ?_ hP2 i j hj ?_
    · intro q hq
      rw [connectPair_localAddr _ i j q (hlen1 ▸ hi) (hlen1 ▸ hj)]
      exact haddr1 q
    · show ((connectPair (connFold P1 ts) i j).getD i default).lookup
        ((ts.getD j default).localAddr) = some j
      rw [← haddr1 j]
      exact hest.1
  intro i j hi hj hij
  refine ⟨hmain i j hi hj hij, ?_⟩
  have hlenR : (connectLoobackTransports ts).length = ts.length :=
    connFold_length (allPairs ts.length) ts
  have haddrR : ∀ q, ((connectLoobackTransports ts).getD q default).localAddr =
      (ts.getD q default).localAddr := by
    intro q
    show ((connFold (allPairs ts.length) ts).getD q default).localAddr = _
    exact connFold_localAddr (allPairs ts.length) ts q
      (fun p hp => allPairs_mem_bound ts.length p hp)
  intro k b
  rw [connectPair_ne _ i j hij]
  by_cases hkj : k = j
  · subst hkj
    rw [getD_set_self _ _ _ (by rw [List.length_set, hlenR]; exact hj)]
    rw [lookup_Connect, haddrR i]
    by_cases hbi : b = (ts.getD i default).localAddr
    · rw [if_pos hbi, hbi]
      exact (hmain k i hj hi (fun hh => hij hh.symm)).symm
    · rw [if_neg hbi]
  · rw [getD_set_ne _ j k _ hkj]
    by_cases hki : k = i
    · subst hki
      rw [getD_set_self _ _ _ (by rw [hlenR]; exact hi), lookup_Connect, haddrR j]
      by_cases hbj : b = (ts.getD j default).localAddr
      · rw [if_pos hbj, hbj]
        exact (hmain k j hi hj hij).symm
      · rw [if_neg hbj]
    · rw [getD_set_ne _ i k _ hki]

/-- Claim C6 witness: two transports with distinct addresses, connected and
re-connected, evaluated at the pair `(0, 1)`. -/
theorem connectLoobackTransports_complete_witness :
    ((connectLoobackTransports [⟨"0", []⟩, ⟨"1", []⟩]).getD 0 default).lookup
        ((([⟨"0", []⟩, ⟨"1", []⟩] : List Transport).getD 1 default).localAddr) =
      some 1 ∧
    ∀ k b, ((connectPair (connectLoobackTransports [⟨"0", []⟩, ⟨"1", []⟩]) 0 1).getD k
        default).lookup b =
      ((connectLoobackTransports [⟨"0", []⟩, ⟨"1", []⟩]).getD k default).lookup b :=
  connectLoobackTransports_complete [⟨"0", []⟩, ⟨"1", []⟩] (by decide) 0 1
    (by decide) (by decide) (by decide)

end Rafttest
